import Mathlib

/-!
Shallow embedding of the tasks-cli program (src/index.ts) and proofs about it.

The program keeps a flat list of task records plus a counter `nextId`.
Commands are parsed from a single input line and mutate the store
(`add`, `done`, `delete`) or only render it (`display`, `archive`, `help`,
`location`).  Timestamps produced by `new Date().toISOString()` are modelled
by an explicit `now : String` argument threaded into each command.
Console output is modelled by the inductive `Msg`; the `saved` flag of
`CmdResult` records whether the command called `saveTasks`.
-/

namespace TaskCli

/-- Task record, mirroring the `Task` interface of src/index.ts.
Optional fields are absent (`none`) exactly when the JS object lacks the key. -/
structure Task where
  id : Nat
  name : String
  completed : Bool
  hidden : Bool
  createdAt : String
  completedAt : Option String := none
  hiddenAt : Option String := none
  deriving DecidableEq

/-- The persisted document, mirroring the `TaskData` interface of src/index.ts. -/
structure TaskData where
  tasks : List Task
  nextId : Nat
  deriving DecidableEq

/-- `getPendingTasks` of src/index.ts: `data.tasks.filter(t => !t.completed && !t.hidden)`. -/
def getPendingTasks (data : TaskData) : List Task :=
  data.tasks.filter (fun t => !t.completed && !t.hidden)

/-- `getArchivedTasks` of src/index.ts: `data.tasks.filter(t => t.completed && !t.hidden)`. -/
def getArchivedTasks (data : TaskData) : List Task :=
  data.tasks.filter (fun t => t.completed && !t.hidden)

/- ============ string helpers (models of the JS string operations used) ============ -/

/-- Model of `String.prototype.trim`: drop whitespace from both ends. -/
def trimChars (cs : List Char) : List Char :=
  ((cs.dropWhile Char.isWhitespace).reverse.dropWhile Char.isWhitespace).reverse

/-- `input.trim()` on strings. -/
def strTrim (s : String) : String :=
  ⟨trimChars s.data⟩

/-- ASCII lowercasing of one character (the command vocabulary is ASCII). -/
def lowerChar (c : Char) : Char :=
  if 65 ≤ c.toNat && c.toNat ≤ 90 then Char.ofNat (c.toNat + 32) else c

/-- Model of `String.prototype.toLowerCase` on the ASCII range. -/
def strToLower (s : String) : String :=
  ⟨s.data.map lowerChar⟩

/-- Accumulating worker for `splitWS`; `acc` holds the current token reversed. -/
def splitWSAux : List Char → List Char → List String
  | [], acc => if acc.isEmpty then [] else [⟨acc.reverse⟩]
  | c :: cs, acc =>
    if c.isWhitespace then
      if acc.isEmpty then splitWSAux cs [] else (⟨acc.reverse⟩ : String) :: splitWSAux cs []
    else splitWSAux cs (c :: acc)

/-- Model of `trimmed.split(/\s+/)`: whitespace-separated tokens, runs collapsed,
no empty tokens (the input is already trimmed when the program calls this). -/
def splitWS (s : String) : List String :=
  splitWSAux s.data []

/-- Model of `array.join(" ")`. -/
def joinSpace : List String → String
  | [] => ""
  | [s] => s
  | s :: rest => s ++ " " ++ joinSpace rest

/-- Value accumulated over a run of decimal digit characters. -/
def digitsToNat (acc : Nat) : List Char → Nat
  | [] => acc
  | c :: cs => if c.isDigit then digitsToNat (acc * 10 + (c.toNat - 48)) cs else acc

/-- Leading run of decimal digits, `none` when the first character is not a digit. -/
def leadingNat : List Char → Option Nat
  | [] => none
  | c :: cs => if c.isDigit then some (digitsToNat (c.toNat - 48) cs) else none

/-- Model of `parseInt(s, 10)`: skip leading whitespace, optional sign, then the
leading run of decimal digits; `none` models `NaN`.  Trailing garbage is ignored,
as in JS. -/
def parseIntJS (s : String) : Option Int :=
  let cs := s.data.dropWhile Char.isWhitespace
  match cs with
  | '-' :: rest => (leadingNat rest).map (fun n => -(n : Int))
  | '+' :: rest => (leadingNat rest).map (fun n => (n : Int))
  | _ => (leadingNat cs).map (fun n => (n : Int))

/- ============ command results ============ -/

/-- The user-visible messages the program can print, one constructor per
`console.log` outcome that the claims talk about. -/
inductive Msg where
  | empty
  | goodbye
  | addUsage
  | taskAdded (name : String) (serial : Nat)
  | doneUsage
  | invalidTaskNumber
  | completedTask (name : String)
  | deleteUsage
  | deleteInvalidInput
  | noPendingToDelete
  | deletedPending (count : Nat)
  | noArchivedToDelete
  | deletedArchived (count : Nat)
  | deletedOne (name : String)
  | displayed
  | archiveShown
  | helpShown
  | locationShown
  | unknown (command : String)
  deriving DecidableEq

/-- Result of processing one input line: the (possibly) mutated store, the
message printed, whether the session continues, and whether `saveTasks` ran. -/
structure CmdResult where
  data : TaskData
  msg : Msg
  keepGoing : Bool
  saved : Bool
  deriving DecidableEq

/- ============ commands ============ -/

/-- `data.tasks.findIndex(t => t.id === targetId)` followed by
`tasks[i].completed = true; tasks[i].completedAt = now`: mark the first task
with the given id completed. -/
def setCompleted (targetId : Nat) (now : String) : List Task → List Task
  | [] => []
  | t :: ts =>
    if t.id = targetId then { t with completed := true, completedAt := some now } :: ts
    else t :: setCompleted targetId now ts

/-- `data.tasks.findIndex(t => t.id === targetId)` followed by
`tasks[i].hidden = true; tasks[i].hiddenAt = now`: mark the first task
with the given id hidden. -/
def setHidden (targetId : Nat) (now : String) : List Task → List Task
  | [] => []
  | t :: ts =>
    if t.id = targetId then { t with hidden := true, hiddenAt := some now } :: ts
    else t :: setHidden targetId now ts

/-- The `forEach` loops of `deleteTask`'s bulk branches: hide, in order, the
task with each listed id. -/
def hideTasks (ids : List Nat) (now : String) (ts : List Task) : List Task :=
  ids.foldl (fun acc i => setHidden i now acc) ts

/-- `addTask` of src/index.ts: append a task carrying `nextId`, increment
`nextId`, and report the pending count of the updated store as the serial. -/
def addTask (taskName : String) (now : String) (data : TaskData) : TaskData × Nat :=
  let newTask : Task :=
    { id := data.nextId, name := taskName, completed := false, hidden := false, createdAt := now }
  let data' : TaskData := { tasks := data.tasks ++ [newTask], nextId := data.nextId + 1 }
  (data', (getPendingTasks data').length)

/-- `markDone` of src/index.ts.  The second component is the message, the third
records whether `saveTasks` ran.  The `none` branch of the inner match is
unreachable: the bounds check guarantees the pending index is in range. -/
def markDone (serialNumber : Int) (now : String) (data : TaskData) : TaskData × Msg × Bool :=
  let pendingTasks := getPendingTasks data
  if serialNumber < 1 ∨ serialNumber > (pendingTasks.length : Int) then
    (data, Msg.invalidTaskNumber, false)
  else
    match pendingTasks[(serialNumber - 1).toNat]? with
    | some taskToComplete =>
      ({ data with tasks := setCompleted taskToComplete.id now data.tasks },
        Msg.completedTask taskToComplete.name, true)
    | none => (data, Msg.invalidTaskNumber, false)

/-- `deleteTask` of src/index.ts: `all` hides every pending task, `archive`
hides every archived task, otherwise the argument is parsed as a pending
serial number and that one task is hidden. -/
def deleteTask (input : String) (now : String) (data : TaskData) : TaskData × Msg × Bool :=
  let arg := strTrim (strToLower input)
  if arg = "all" then
    let pendingTasks := getPendingTasks data
    if pendingTasks.length = 0 then (data, Msg.noPendingToDelete, false)
    else
      ({ data with tasks := hideTasks (pendingTasks.map Task.id) now data.tasks },
        Msg.deletedPending pendingTasks.length, true)
  else if arg = "archive" then
    let archivedTasks := getArchivedTasks data
    if archivedTasks.length = 0 then (data, Msg.noArchivedToDelete, false)
    else
      ({ data with tasks := hideTasks (archivedTasks.map Task.id) now data.tasks },
        Msg.deletedArchived archivedTasks.length, true)
  else
    match parseIntJS arg with
    | none => (data, Msg.deleteInvalidInput, false)
    | some serialNumber =>
      let pendingTasks := getPendingTasks data
      if serialNumber < 1 ∨ serialNumber > (pendingTasks.length : Int) then
        (data, Msg.invalidTaskNumber, false)
      else
        match pendingTasks[(serialNumber - 1).toNat]? with
        | some taskToDelete =>
          ({ data with tasks := setHidden taskToDelete.id now data.tasks },
            Msg.deletedOne taskToDelete.name, true)
        | none => (data, Msg.invalidTaskNumber, false)

/-- First whitespace token of the trimmed line, lowercased:
`trimmed.split(/\s+/)[0].toLowerCase()`. -/
def commandOf (input : String) : String :=
  strToLower ((splitWS (strTrim input)).headD "")

/-- Remaining tokens re-joined with single spaces:
`parts.slice(1).join(" ")`. -/
def argsOf (input : String) : String :=
  joinSpace ((splitWS (strTrim input)).drop 1)

/-- `processCommand` of src/index.ts: dispatch one input line. -/
def processCommand (input : String) (now : String) (data : TaskData) : CmdResult :=
  if strTrim input = "" then ⟨data, Msg.empty, true, false⟩
  else
    let command := commandOf input
    let args := argsOf input
    if command = "exit" ∨ command = "quit" ∨ command = "q" then
      ⟨data, Msg.goodbye, false, false⟩
    else if command = "add" then
      if args = "" then ⟨data, Msg.addUsage, true, false⟩
      else
        let r := addTask args now data
        ⟨r.1, Msg.taskAdded args r.2, true, true⟩
    else if command = "done" then
      match parseIntJS args with
      | none => ⟨data, Msg.doneUsage, true, false⟩
      | some n =>
        let r := markDone n now data
        ⟨r.1, r.2.1, true, r.2.2⟩
    else if command = "delete" then
      if args = "" then ⟨data, Msg.deleteUsage, true, false⟩
      else
        let r := deleteTask args now data
        ⟨r.1, r.2.1, true, r.2.2⟩
    else if command = "display" ∨ command = "list" ∨ command = "show" then
      ⟨data, Msg.displayed, true, false⟩
    else if command = "archive" then ⟨data, Msg.archiveShown, true, false⟩
    else if command = "help" then ⟨data, Msg.helpShown, true, false⟩
    else if command = "location" then ⟨data, Msg.locationShown, true, false⟩
    else ⟨data, Msg.unknown command, true, false⟩

/-- The storage invariant of the spec (section 3): ids are pairwise distinct
and `nextId` is strictly greater than every stored id. -/
def Inv (data : TaskData) : Prop :=
  (data.tasks.map Task.id).Nodup ∧ ∀ t ∈ data.tasks, t.id < data.nextId

instance (data : TaskData) : Decidable (Inv data) := by
  unfold Inv; infer_instance

/-- A store with exactly one pending task, used to instantiate theorems. -/
def storeOnePending : TaskData :=
  ⟨[⟨1, "x", false, false, "c0", none, none⟩], 2⟩

/-- A store with two pending tasks and one archived task. -/
def storeMixed : TaskData :=
  ⟨[⟨1, "a", false, false, "c1", none, none⟩,
    ⟨2, "b", true, false, "c2", some "d2", none⟩,
    ⟨3, "c", false, false, "c3", none, none⟩], 4⟩

/- ============ JSON storage model ============

`saveTasks` writes `JSON.stringify(data, null, 2)` to the data file and
`loadTasks` runs `JSON.parse` on its contents.  `saveTasks` below produces the
exact pretty-printed document the program writes; `parseTaskData` models
`JSON.parse` on such TaskData documents (including the un-escaping of string
escapes); `loadTasks` models the load path, defaulting to the fresh store on a
missing or unparsable file. -/

/-- The decimal digit character for `d < 10` (any larger value is clamped,
never reached by the renderer). -/
def natDigitChar (d : Nat) : Char :=
  match d with
  | 0 => '0' | 1 => '1' | 2 => '2' | 3 => '3' | 4 => '4'
  | 5 => '5' | 6 => '6' | 7 => '7' | 8 => '8' | _ => '9'

/-- Fuel-driven decimal rendering worker (the fuel makes it structurally
recursive; `renderNat` supplies enough). -/
def renderNatCore : Nat → Nat → List Char → List Char
  | 0, _, acc => acc
  | fuel + 1, n, acc =>
    if n < 10 then natDigitChar n :: acc
    else renderNatCore fuel (n / 10) (natDigitChar (n % 10) :: acc)

/-- Decimal rendering of a natural number, most significant digit first:
how JSON.stringify prints the integer fields of TaskData. -/
def renderNat (n : Nat) : List Char :=
  renderNatCore (n + 1) n []

/-- Reference form of the decimal digits, by well-founded recursion. -/
def natDigits (n : Nat) : List Char :=
  if _h : n < 10 then [natDigitChar n]
  else natDigits (n / 10) ++ [natDigitChar (n % 10)]
termination_by n
decreasing_by
  exact Nat.div_lt_self (by omega) (by omega)

/-- Lowercase hex digit, as emitted by JSON.stringify's `\u` escapes. -/
def hexDigitChar (d : Nat) : Char :=
  match d with
  | 0 => '0' | 1 => '1' | 2 => '2' | 3 => '3' | 4 => '4' | 5 => '5' | 6 => '6'
  | 7 => '7' | 8 => '8' | 9 => '9' | 10 => 'a' | 11 => 'b' | 12 => 'c'
  | 13 => 'd' | 14 => 'e' | _ => 'f'

/-- Value of a hex digit character; JSON.parse accepts both letter cases. -/
def hexVal (c : Char) : Option Nat :=
  if 48 ≤ c.toNat && c.toNat ≤ 57 then some (c.toNat - 48)
  else if 97 ≤ c.toNat && c.toNat ≤ 102 then some (c.toNat - 87)
  else if 65 ≤ c.toNat && c.toNat ≤ 70 then some (c.toNat - 55)
  else none

/-- JSON.stringify's escaping of one string character: the two-character
escapes for quote, backslash and the named control characters, `\u00XX` for
the remaining control characters, and the character itself otherwise. -/
def escChar (c : Char) : List Char :=
  if c = '"' then ['\\', '"']
  else if c = '\\' then ['\\', '\\']
  else if c = '\x08' then ['\\', 'b']
  else if c = '\t' then ['\\', 't']
  else if c = '\n' then ['\\', 'n']
  else if c = '\x0c' then ['\\', 'f']
  else if c = '\r' then ['\\', 'r']
  else if c.toNat < 32 then
    ['\\', 'u', '0', '0', hexDigitChar (c.toNat / 16), hexDigitChar (c.toNat % 16)]
  else [c]

/-- JSON string body: every character escaped. -/
def escapeChars : List Char → List Char
  | [] => []
  | c :: cs => escChar c ++ escapeChars cs

/-- A quoted, escaped JSON string literal. -/
def quoteString (s : String) : List Char :=
  '"' :: (escapeChars s.data ++ ['"'])

/-- Serialization of one task record exactly as in the program's
`JSON.stringify(data, null, 2)` output (array element at indent 4, fields at
indent 6, optional fields present only when the record carries them). -/
def renderTask (t : Task) : List Char :=
  ("    \x7b\n      \"id\": ").data ++ renderNat t.id
    ++ (",\n      \"name\": ").data ++ quoteString t.name
    ++ (",\n      \"completed\": ").data ++ (if t.completed then "true".data else "false".data)
    ++ (",\n      \"hidden\": ").data ++ (if t.hidden then "true".data else "false".data)
    ++ (",\n      \"createdAt\": ").data ++ quoteString t.createdAt
    ++ (match t.completedAt with
        | none => []
        | some s => (",\n      \"completedAt\": ").data ++ quoteString s)
    ++ (match t.hiddenAt with
        | none => []
        | some s => (",\n      \"hiddenAt\": ").data ++ quoteString s)
    ++ ("\n    \x7d").data

/-- The task array elements joined with `,\n`. -/
def renderTasks : List Task → List Char
  | [] => []
  | [t] => renderTask t
  | t :: t2 :: ts => renderTask t ++ (",\n").data ++ renderTasks (t2 :: ts)

/-- The characters of the serialized document. -/
def saveTasksChars (data : TaskData) : List Char :=
  ("\x7b\n  \"tasks\": ").data
    ++ (if data.tasks.isEmpty then "[]".data
        else ("[\n").data ++ renderTasks data.tasks ++ ("\n  ]").data)
    ++ ((",\n  \"nextId\": ").data ++ (renderNat data.nextId ++ ("\n\x7d").data))

/-- `saveTasks` of src/index.ts: the exact `JSON.stringify(data, null, 2)`
text written to the data file. -/
def saveTasks (data : TaskData) : String :=
  ⟨saveTasksChars data⟩

/-- Consume an expected literal chunk of the document. -/
def expectChunk (tok cs : List Char) : Option (List Char) :=
  if tok.isPrefixOf cs then some (cs.drop tok.length) else none

/-- Read the leading run of decimal digits as a number. -/
def readNat (cs : List Char) : Option (Nat × List Char) :=
  let ds := cs.takeWhile Char.isDigit
  if ds.isEmpty then none
  else some (ds.foldl (fun a c => a * 10 + (c.toNat - 48)) 0, cs.dropWhile Char.isDigit)

/-- Read a JSON string body after the opening quote, undoing JSON.parse's
escapes; returns the decoded characters and the input after the closing
quote.  Raw control characters and bad escapes are rejected, as JSON.parse
rejects them. -/
def readStringBody : List Char → Option (List Char × List Char)
  | [] => none
  | c :: rest =>
    if c = '"' then some ([], rest)
    else if c = '\\' then
      match rest with
      | [] => none
      | e :: rest2 =>
        if e = 'u' then
          match rest2 with
          | h1 :: h2 :: h3 :: h4 :: rest3 =>
            match hexVal h1, hexVal h2, hexVal h3, hexVal h4 with
            | some d1, some d2, some d3, some d4 =>
              (readStringBody rest3).map
                (fun r => (Char.ofNat (((d1 * 16 + d2) * 16 + d3) * 16 + d4) :: r.1, r.2))
            | _, _, _, _ => none
          | _ => none
        else
          match (if e = '"' then some '"'
            else if e = '\\' then some '\\'
            else if e = '/' then some '/'
            else if e = 'b' then some '\x08'
            else if e = 'f' then some '\x0c'
            else if e = 'n' then some '\n'
            else if e = 'r' then some '\r'
            else if e = 't' then some '\t'
            else (none : Option Char)) with
          | some d => (readStringBody rest2).map (fun r => (d :: r.1, r.2))
          | none => none
    else if c.toNat < 32 then none
    else (readStringBody rest).map (fun r => (c :: r.1, r.2))

/-- Read one quoted string: opening quote plus escaped body. -/
def readQString (cs : List Char) : Option (String × List Char) := do
  let cs ← expectChunk ['"'] cs
  let r ← readStringBody cs
  pure (⟨r.1⟩, r.2)

/-- Read `true` or `false`. -/
def readBool (cs : List Char) : Option (Bool × List Char) :=
  match expectChunk ("true").data cs with
  | some rest => some (true, rest)
  | none =>
    match expectChunk ("false").data cs with
    | some rest => some (false, rest)
    | none => none

/-- Parse one serialized task record. -/
def readTask (cs : List Char) : Option (Task × List Char) := do
  let cs ← expectChunk ("    \x7b\n      \"id\": ").data cs
  let (tid, cs) ← readNat cs
  let cs ← expectChunk (",\n      \"name\": ").data cs
  let (name, cs) ← readQString cs
  let cs ← expectChunk (",\n      \"completed\": ").data cs
  let (completed, cs) ← readBool cs
  let cs ← expectChunk (",\n      \"hidden\": ").data cs
  let (hidden, cs) ← readBool cs
  let cs ← expectChunk (",\n      \"createdAt\": ").data cs
  let (createdAt, cs) ← readQString cs
  match expectChunk (",\n      \"completedAt\": ").data cs with
  | some cs1 => do
    let (ca, cs2) ← readQString cs1
    match expectChunk (",\n      \"hiddenAt\": ").data cs2 with
    | some cs3 => do
      let (ha, cs4) ← readQString cs3
      let cs5 ← expectChunk ("\n    \x7d").data cs4
      pure (⟨tid, name, completed, hidden, createdAt, some ca, some ha⟩, cs5)
    | none => do
      let cs3 ← expectChunk ("\n    \x7d").data cs2
      pure (⟨tid, name, completed, hidden, createdAt, some ca, none⟩, cs3)
  | none =>
    match expectChunk (",\n      \"hiddenAt\": ").data cs with
    | some cs1 => do
      let (ha, cs2) ← readQString cs1
      let cs3 ← expectChunk ("\n    \x7d").data cs2
      pure (⟨tid, name, completed, hidden, createdAt, none, some ha⟩, cs3)
    | none => do
      let cs1 ← expectChunk ("\n    \x7d").data cs
      pure (⟨tid, name, completed, hidden, createdAt, none, none⟩, cs1)

/-- Parse `,\n`-separated task records terminated by the array close. -/
def readTasksAux : Nat → List Char → Option (List Task × List Char)
  | 0, _ => none
  | fuel + 1, cs => do
    let (t, cs) ← readTask cs
    match expectChunk (",\n").data cs with
    | some cs1 => do
      let (ts, cs2) ← readTasksAux fuel cs1
      pure (t :: ts, cs2)
    | none => do
      let cs1 ← expectChunk ("\n  ]").data cs
      pure ([t], cs1)

/-- Parse a serialized TaskData document: the model of `JSON.parse` on the
documents `saveTasks` writes. -/
def parseDoc (cs : List Char) : Option TaskData := do
  let cs ← expectChunk ("\x7b\n  \"tasks\": ").data cs
  let (tasks, cs) ←
    (match expectChunk ("[]").data cs with
    | some cs1 => some (([] : List Task), cs1)
    | none => do
      let cs1 ← expectChunk ("[\n").data cs
      readTasksAux (cs1.length + 1) cs1)
  let cs ← expectChunk (",\n  \"nextId\": ").data cs
  let (nextId, cs) ← readNat cs
  let cs ← expectChunk ("\n\x7d").data cs
  if cs.isEmpty then some ⟨tasks, nextId⟩ else none

/-- Parsing of a document given as a string. -/
def parseTaskData (s : String) : Option TaskData :=
  parseDoc s.data

/-- `loadTasks` of src/index.ts applied to file contents (`none` models the
absent file): parse failures fall back to the fresh store. -/
def loadTasks (content : Option String) : TaskData :=
  match content with
  | none => ⟨[], 1⟩
  | some s =>
    match parseTaskData s with
    | some d => d
    | none => ⟨[], 1⟩

/- ============ theorems ============ -/

/-- Commands on the empty trimmed line: `commandOf` is the empty string. -/
theorem commandOf_of_trim_empty {input : String} (h : strTrim input = "") :
    commandOf input = "" := by
  unfold commandOf
  rw [h]
  rfl

/-- A nonempty command token forces a nonempty trimmed line. -/
theorem strTrim_ne_of_commandOf {input c : String} (hcmd : commandOf input = c)
    (hc : c ≠ "") : strTrim input ≠ "" := by
  intro h
  exact hc (hcmd.symm.trans (commandOf_of_trim_empty h))

/-- Dispatch lemma: a line whose command token is `add` runs the add branch. -/
theorem processCommand_add {input : String} (now : String) (data : TaskData)
    (hcmd : commandOf input = "add") :
    processCommand input now data =
      if argsOf input = "" then ⟨data, Msg.addUsage, true, false⟩
      else ⟨(addTask (argsOf input) now data).1,
        Msg.taskAdded (argsOf input) (addTask (argsOf input) now data).2, true, true⟩ := by
  have htrim := strTrim_ne_of_commandOf hcmd (by decide)
  simp [processCommand, htrim, hcmd]

/-- Dispatch lemma: a line whose command token is `done` runs the done branch. -/
theorem processCommand_done {input : String} (now : String) (data : TaskData)
    (hcmd : commandOf input = "done") :
    processCommand input now data =
      match parseIntJS (argsOf input) with
      | none => ⟨data, Msg.doneUsage, true, false⟩
      | some n =>
        ⟨(markDone n now data).1, (markDone n now data).2.1, true, (markDone n now data).2.2⟩ := by
  have htrim := strTrim_ne_of_commandOf hcmd (by decide)
  simp [processCommand, htrim, hcmd]

/-- Dispatch lemma: a line whose command token is `delete` runs the delete branch. -/
theorem processCommand_delete {input : String} (now : String) (data : TaskData)
    (hcmd : commandOf input = "delete") :
    processCommand input now data =
      if argsOf input = "" then ⟨data, Msg.deleteUsage, true, false⟩
      else ⟨(deleteTask (argsOf input) now data).1, (deleteTask (argsOf input) now data).2.1,
        true, (deleteTask (argsOf input) now data).2.2⟩ := by
  have htrim := strTrim_ne_of_commandOf hcmd (by decide)
  simp [processCommand, htrim, hcmd]

/-- `setCompleted` never changes the list of ids. -/
theorem setCompleted_map_id (i : Nat) (now : String) :
    ∀ ts : List Task, (setCompleted i now ts).map Task.id = ts.map Task.id := by
  intro ts
  induction ts with
  | nil => rfl
  | cons t ts ih =>
    by_cases h : t.id = i
    · simp [setCompleted, h]
    · simp [setCompleted, h, ih]

/-- `setHidden` never changes the list of ids. -/
theorem setHidden_map_id (i : Nat) (now : String) :
    ∀ ts : List Task, (setHidden i now ts).map Task.id = ts.map Task.id := by
  intro ts
  induction ts with
  | nil => rfl
  | cons t ts ih =>
    by_cases h : t.id = i
    · simp [setHidden, h]
    · simp [setHidden, h, ih]

/-- `hideTasks` never changes the list of ids. -/
theorem hideTasks_map_id (now : String) :
    ∀ (ids : List Nat) (ts : List Task),
      (hideTasks ids now ts).map Task.id = ts.map Task.id := by
  intro ids
  induction ids with
  | nil => intro ts; rfl
  | cons i ids ih =>
    intro ts
    have h1 : hideTasks (i :: ids) now ts = hideTasks ids now (setHidden i now ts) := rfl
    rw [h1, ih, setHidden_map_id]

/-- `setHidden` skips a head whose id differs from the target. -/
theorem setHidden_cons_ne (i : Nat) (now : String) (t : Task) (ts : List Task)
    (h : ¬ t.id = i) : setHidden i now (t :: ts) = t :: setHidden i now ts := by
  simp [setHidden, h]

/-- `hideTasks` skips a head whose id is not among the targets. -/
theorem hideTasks_cons_not_mem (now : String) :
    ∀ (ids : List Nat) (t : Task) (ts : List Task), t.id ∉ ids →
      hideTasks ids now (t :: ts) = t :: hideTasks ids now ts := by
  intro ids
  induction ids with
  | nil => intro t ts _; rfl
  | cons i ids ih =>
    intro t ts h
    rw [List.mem_cons, not_or] at h
    obtain ⟨hi, h2⟩ := h
    show hideTasks ids now (setHidden i now (t :: ts)) = _
    rw [setHidden_cons_ne i now t ts hi, ih _ _ h2]
    rfl

/-- With pairwise-distinct ids, hiding the ids of the `p`-filtered tasks marks
exactly the tasks satisfying `p` hidden (this is the `forEach`-plus-`findIndex`
loop of the bulk delete branches). -/
theorem hideTasks_filter_eq_map (p : Task → Bool) (now : String) :
    ∀ ts : List Task, (ts.map Task.id).Nodup →
      hideTasks ((ts.filter p).map Task.id) now ts
        = ts.map (fun t =>
            if p t then { t with hidden := true, hiddenAt := some now } else t) := by
  intro ts
  induction ts with
  | nil => intro _; rfl
  | cons t ts ih =>
    intro hnd
    rw [List.map_cons, List.nodup_cons] at hnd
    obtain ⟨hnotin, hnd'⟩ := hnd
    have htid : t.id ∉ (ts.filter p).map Task.id := by
      intro hx
      obtain ⟨u, hu, hux⟩ := List.mem_map.mp hx
      exact hnotin (List.mem_map.mpr ⟨u, List.mem_of_mem_filter hu, hux⟩)
    by_cases hp : p t
    · rw [List.filter_cons_of_pos hp, List.map_cons]
      have h1 : hideTasks (t.id :: (ts.filter p).map Task.id) now (t :: ts)
          = hideTasks ((ts.filter p).map Task.id) now (setHidden t.id now (t :: ts)) := rfl
      have h2 : setHidden t.id now (t :: ts)
          = { t with hidden := true, hiddenAt := some now } :: ts := by
        simp [setHidden]
      have htid' : ({ t with hidden := true, hiddenAt := some now } : Task).id
          ∉ (ts.filter p).map Task.id := htid
      rw [h1, h2, hideTasks_cons_not_mem now _ _ _ htid', ih hnd']
      simp [hp]
    · rw [List.filter_cons_of_neg hp, hideTasks_cons_not_mem now _ _ _ htid, ih hnd']
      simp [hp]

/-- After marking every `p`-task hidden, no task satisfies `p` any more
(provided `p` rejects hidden tasks). -/
theorem filter_map_hide_nil (p : Task → Bool) (now : String)
    (hp : ∀ t : Task, p { t with hidden := true, hiddenAt := some now } = false) :
    ∀ ts : List Task,
      (ts.map (fun t =>
        if p t then { t with hidden := true, hiddenAt := some now } else t)).filter p
          = [] := by
  intro ts
  induction ts with
  | nil => rfl
  | cons t ts ih =>
    by_cases hpt : p t
    · simp [hpt, hp t, ih]
    · simp [hpt, ih]

/-- With pairwise-distinct ids, hiding the id of the `m`-th `p`-filtered task
removes exactly position `m` from the filtered view. -/
theorem filter_setHidden_eraseIdx (p : Task → Bool) (now : String)
    (hp : ∀ t : Task, p { t with hidden := true, hiddenAt := some now } = false) :
    ∀ (ts : List Task) (m : Nat) (tgt : Task), (ts.map Task.id).Nodup →
      (ts.filter p)[m]? = some tgt →
      (setHidden tgt.id now ts).filter p = (ts.filter p).eraseIdx m := by
  intro ts
  induction ts with
  | nil =>
    intro m tgt _ hget
    simp at hget
  | cons t ts ih =>
    intro m tgt hnd hget
    rw [List.map_cons, List.nodup_cons] at hnd
    obtain ⟨hnotin, hnd'⟩ := hnd
    by_cases hpt : p t
    · rw [List.filter_cons_of_pos hpt] at hget ⊢
      cases m with
      | zero =>
        have heq : t = tgt := by simpa using hget
        subst heq
        have h2 : setHidden t.id now (t :: ts)
            = { t with hidden := true, hiddenAt := some now } :: ts := by
          simp [setHidden]
        rw [h2, List.filter_cons_of_neg (by simp [hp t]), List.eraseIdx_cons_zero]
      | succ m' =>
        have hget' : (ts.filter p)[m']? = some tgt := by simpa using hget
        have htgtmem : tgt ∈ ts := List.mem_of_mem_filter (List.getElem?_mem hget')
        have hne : ¬ t.id = tgt.id := by
          intro he
          exact hnotin (he ▸ List.mem_map.mpr ⟨tgt, htgtmem, rfl⟩)
        rw [setHidden_cons_ne tgt.id now t ts hne, List.filter_cons_of_pos hpt,
          List.eraseIdx_cons_succ, ih m' tgt hnd' hget']
    · rw [List.filter_cons_of_neg hpt] at hget ⊢
      have htgtmem : tgt ∈ ts := List.mem_of_mem_filter (List.getElem?_mem hget)
      have hne : ¬ t.id = tgt.id := by
        intro he
        exact hnotin (he ▸ List.mem_map.mpr ⟨tgt, htgtmem, rfl⟩)
      rw [setHidden_cons_ne tgt.id now t ts hne, List.filter_cons_of_neg hpt]
      exact ih m tgt hnd' hget

/-- With pairwise-distinct ids, the hidden copy of a stored task is in the
updated list. -/
theorem hide_mem_setHidden (now : String) :
    ∀ (ts : List Task) (tgt : Task), (ts.map Task.id).Nodup → tgt ∈ ts →
      { tgt with hidden := true, hiddenAt := some now } ∈ setHidden tgt.id now ts := by
  intro ts
  induction ts with
  | nil =>
    intro tgt _ h
    cases h
  | cons t ts ih =>
    intro tgt hnd hmem
    rw [List.map_cons, List.nodup_cons] at hnd
    obtain ⟨hnotin, hnd'⟩ := hnd
    rcases List.mem_cons.mp hmem with he | hmem'
    · subst he
      simp [setHidden]
    · have hne : ¬ t.id = tgt.id := by
        intro he
        exact hnotin (he ▸ List.mem_map.mpr ⟨tgt, hmem', rfl⟩)
      rw [setHidden_cons_ne tgt.id now t ts hne]
      exact List.mem_cons_of_mem _ (ih tgt hnd' hmem')

/-- C1: the pending view is exactly the order-preserving subsequence of
`data.tasks` whose elements are neither completed nor hidden, the archived
view exactly that of the completed, non-hidden elements, and a hidden task
is in neither view. -/
theorem claim1_views (data : TaskData) :
    getPendingTasks data = data.tasks.filter (fun t => !t.completed && !t.hidden) ∧
    getArchivedTasks data = data.tasks.filter (fun t => t.completed && !t.hidden) ∧
    List.Sublist (getPendingTasks data) data.tasks ∧
    List.Sublist (getArchivedTasks data) data.tasks ∧
    ∀ t ∈ data.tasks, t.hidden = true →
      t ∉ getPendingTasks data ∧ t ∉ getArchivedTasks data := by
  refine ⟨rfl, rfl, List.filter_sublist _, List.filter_sublist _, ?_⟩
  intro t _ ht
  constructor <;> intro hmem
  · simp [getPendingTasks, List.mem_filter, ht] at hmem
  · simp [getArchivedTasks, List.mem_filter, ht] at hmem

/-- C1 witness: the views of a concrete mixed store. -/
theorem claim1_views_witness :
    getPendingTasks storeMixed = storeMixed.tasks.filter (fun t => !t.completed && !t.hidden) ∧
    getArchivedTasks storeMixed = storeMixed.tasks.filter (fun t => t.completed && !t.hidden) ∧
    List.Sublist (getPendingTasks storeMixed) storeMixed.tasks ∧
    List.Sublist (getArchivedTasks storeMixed) storeMixed.tasks ∧
    ∀ t ∈ storeMixed.tasks, t.hidden = true →
      t ∉ getPendingTasks storeMixed ∧ t ∉ getArchivedTasks storeMixed :=
  claim1_views storeMixed

/-- C2: an `add` with a non-empty name appends a task carrying the current
`nextId`, increments `nextId`, saves, and reports a serial equal to the pending
count after insertion, which is the new task's 1-based pending position.
Universality over the starting store covers every sequence of adds. -/
theorem claim2_add_serial (input now : String) (data : TaskData)
    (hcmd : commandOf input = "add") (hargs : argsOf input ≠ "") :
    (processCommand input now data).data.tasks
      = data.tasks ++ [⟨data.nextId, argsOf input, false, false, now, none, none⟩] ∧
    (processCommand input now data).data.nextId = data.nextId + 1 ∧
    (processCommand input now data).saved = true ∧
    getPendingTasks (processCommand input now data).data
      = getPendingTasks data ++ [⟨data.nextId, argsOf input, false, false, now, none, none⟩] ∧
    (processCommand input now data).msg
      = Msg.taskAdded (argsOf input)
          (getPendingTasks (processCommand input now data).data).length ∧
    (getPendingTasks (processCommand input now data).data)[(getPendingTasks
        (processCommand input now data).data).length - 1]?
      = some ⟨data.nextId, argsOf input, false, false, now, none, none⟩ := by
  rw [processCommand_add now data hcmd, if_neg hargs]
  have hpend : getPendingTasks (addTask (argsOf input) now data).1
      = getPendingTasks data
        ++ [⟨data.nextId, argsOf input, false, false, now, none, none⟩] := by
    simp [addTask, getPendingTasks, List.filter_append]
  refine ⟨rfl, rfl, rfl, hpend, ?_, ?_⟩
  · simp [addTask, hpend, getPendingTasks]
  · rw [hpend]
    simp

/-- C2 witness: adding to a concrete store with one pending task. -/
theorem claim2_add_serial_witness :
    (processCommand "add buy milk" "t0" storeOnePending).data.tasks
      = storeOnePending.tasks
        ++ [⟨storeOnePending.nextId, argsOf "add buy milk", false, false, "t0", none, none⟩] ∧
    (processCommand "add buy milk" "t0" storeOnePending).data.nextId
      = storeOnePending.nextId + 1 ∧
    (processCommand "add buy milk" "t0" storeOnePending).saved = true ∧
    getPendingTasks (processCommand "add buy milk" "t0" storeOnePending).data
      = getPendingTasks storeOnePending
        ++ [⟨storeOnePending.nextId, argsOf "add buy milk", false, false, "t0", none, none⟩] ∧
    (processCommand "add buy milk" "t0" storeOnePending).msg
      = Msg.taskAdded (argsOf "add buy milk")
          (getPendingTasks (processCommand "add buy milk" "t0" storeOnePending).data).length ∧
    (getPendingTasks (processCommand "add buy milk" "t0" storeOnePending).data)[(getPendingTasks
        (processCommand "add buy milk" "t0" storeOnePending).data).length - 1]?
      = some ⟨storeOnePending.nextId, argsOf "add buy milk", false, false, "t0", none, none⟩ :=
  claim2_add_serial "add buy milk" "t0" storeOnePending (by decide) (by decide)

/-- C3: a `done` whose argument does not parse as an integer, or parses to a
value outside `[1, pending.length]`, reports invalid input and leaves the
store unchanged without saving. -/
theorem claim3_done_invalid (input now : String) (data : TaskData)
    (hcmd : commandOf input = "done")
    (hbad : parseIntJS (argsOf input) = none ∨
      ∃ n : Int, parseIntJS (argsOf input) = some n ∧
        (n < 1 ∨ n > ((getPendingTasks data).length : Int))) :
    (processCommand input now data).data = data ∧
    (processCommand input now data).saved = false ∧
    ((processCommand input now data).msg = Msg.doneUsage ∨
      (processCommand input now data).msg = Msg.invalidTaskNumber) := by
  rw [processCommand_done now data hcmd]
  rcases hbad with hb | ⟨n, hb, hbnd⟩
  · simp [hb]
  · rw [hb]
    simp [markDone, if_pos hbnd]

/-- C3 witness: `done 0`, `done -1` and `done 999` against a store with one
pending task all report invalid input and change nothing. -/
theorem claim3_done_invalid_witness :
    ((processCommand "done 0" "t1" storeOnePending).data = storeOnePending ∧
      (processCommand "done 0" "t1" storeOnePending).saved = false ∧
      ((processCommand "done 0" "t1" storeOnePending).msg = Msg.doneUsage ∨
        (processCommand "done 0" "t1" storeOnePending).msg = Msg.invalidTaskNumber)) ∧
    ((processCommand "done -1" "t1" storeOnePending).data = storeOnePending ∧
      (processCommand "done -1" "t1" storeOnePending).saved = false ∧
      ((processCommand "done -1" "t1" storeOnePending).msg = Msg.doneUsage ∨
        (processCommand "done -1" "t1" storeOnePending).msg = Msg.invalidTaskNumber)) ∧
    ((processCommand "done 999" "t1" storeOnePending).data = storeOnePending ∧
      (processCommand "done 999" "t1" storeOnePending).saved = false ∧
      ((processCommand "done 999" "t1" storeOnePending).msg = Msg.doneUsage ∨
        (processCommand "done 999" "t1" storeOnePending).msg = Msg.invalidTaskNumber)) :=
  ⟨claim3_done_invalid "done 0" "t1" storeOnePending (by decide)
      (Or.inr ⟨0, by decide, by decide⟩),
    claim3_done_invalid "done -1" "t1" storeOnePending (by decide)
      (Or.inr ⟨-1, by decide, by decide⟩),
    claim3_done_invalid "done 999" "t1" storeOnePending (by decide)
      (Or.inr ⟨999, by decide, by decide⟩)⟩

/-- C8 counterexample: `clear` is not in the command vocabulary; the line
`clear` is reported as an unknown command and mutates nothing. -/
theorem claim8_counterexample :
    (processCommand "clear" "t0" ⟨[], 1⟩).msg = Msg.unknown "clear" ∧
    (processCommand "clear" "t0" ⟨[], 1⟩).data = ⟨[], 1⟩ ∧
    (processCommand "clear" "t0" ⟨[], 1⟩).saved = false := by
  decide

/-- C8 (amended): a line whose first token lowercases to `clear` is reported
as an unknown command and leaves the store untouched and unsaved. -/
theorem claim8_clear_unknown (input now : String) (data : TaskData)
    (hcmd : commandOf input = "clear") :
    processCommand input now data = ⟨data, Msg.unknown "clear", true, false⟩ := by
  have htrim := strTrim_ne_of_commandOf hcmd (by decide)
  simp [processCommand, htrim, hcmd]

/-- C8 witness: the amended claim at the concrete line `clear`. -/
theorem claim8_clear_unknown_witness :
    processCommand "clear" "t0" storeOnePending
      = ⟨storeOnePending, Msg.unknown "clear", true, false⟩ :=
  claim8_clear_unknown "clear" "t0" storeOnePending (by decide)

/-- C9: `display` (and aliases `list`, `show`), `archive`, `help` and
`location` leave the store unchanged and never save. -/
theorem claim9_readonly (input now : String) (data : TaskData)
    (h : commandOf input = "display" ∨ commandOf input = "list" ∨ commandOf input = "show" ∨
      commandOf input = "archive" ∨ commandOf input = "help" ∨ commandOf input = "location") :
    (processCommand input now data).data = data ∧
    (processCommand input now data).saved = false := by
  rcases h with h | h | h | h | h | h <;>
    · have htrim := strTrim_ne_of_commandOf h (by decide)
      simp [processCommand, htrim, h]

/-- C9 witness: the four command families on a concrete store. -/
theorem claim9_readonly_witness :
    ((processCommand "display" "t" storeMixed).data = storeMixed ∧
      (processCommand "display" "t" storeMixed).saved = false) ∧
    ((processCommand "archive" "t" storeMixed).data = storeMixed ∧
      (processCommand "archive" "t" storeMixed).saved = false) ∧
    ((processCommand "help" "t" storeMixed).data = storeMixed ∧
      (processCommand "help" "t" storeMixed).saved = false) ∧
    ((processCommand "location" "t" storeMixed).data = storeMixed ∧
      (processCommand "location" "t" storeMixed).saved = false) :=
  ⟨claim9_readonly "display" "t" storeMixed (Or.inl (by decide)),
    claim9_readonly "archive" "t" storeMixed (Or.inr (Or.inr (Or.inr (Or.inl (by decide))))),
    claim9_readonly "help" "t" storeMixed
      (Or.inr (Or.inr (Or.inr (Or.inr (Or.inl (by decide)))))),
    claim9_readonly "location" "t" storeMixed
      (Or.inr (Or.inr (Or.inr (Or.inr (Or.inr (by decide))))))⟩

/-- C10: the argument string handed to a command is the line's tokens after
the first, re-joined with single spaces, so an added task's stored name has
every whitespace run collapsed to one space. -/
theorem claim10_args_rejoined (input now : String) (data : TaskData)
    (hcmd : commandOf input = "add") (hargs : argsOf input ≠ "") :
    argsOf input = joinSpace ((splitWS (strTrim input)).drop 1) ∧
    (processCommand input now data).data.tasks
      = data.tasks ++ [⟨data.nextId, joinSpace ((splitWS (strTrim input)).drop 1),
          false, false, now, none, none⟩] := by
  refine ⟨rfl, ?_⟩
  rw [processCommand_add now data hcmd, if_neg hargs]
  rfl

/-- C4: for a store whose ids are pairwise distinct (the documented storage
invariant) and an argument parsing to `n` with `1 ≤ n ≤ pending.length`,
`delete <n>` hides exactly the `n`-th pending task (setting `hiddenAt`),
the pending view loses exactly position `n`, every record is retained, and
the result is saved with a deletion message. -/
theorem claim4_delete_n (data : TaskData) (input now : String) (n : Int) (tgt : Task)
    (hids : (data.tasks.map Task.id).Nodup)
    (hparse : parseIntJS (strTrim (strToLower input)) = some n)
    (h1 : 1 ≤ n)
    (hget : (getPendingTasks data)[(n - 1).toNat]? = some tgt) :
    (deleteTask input now data).1.tasks = setHidden tgt.id now data.tasks ∧
    getPendingTasks (deleteTask input now data).1
      = (getPendingTasks data).eraseIdx (n - 1).toNat ∧
    (getPendingTasks (deleteTask input now data).1).length
      = (getPendingTasks data).length - 1 ∧
    { tgt with hidden := true, hiddenAt := some now } ∈ (deleteTask input now data).1.tasks ∧
    (deleteTask input now data).1.tasks.length = data.tasks.length ∧
    (deleteTask input now data).1.nextId = data.nextId ∧
    (deleteTask input now data).2.1 = Msg.deletedOne tgt.name ∧
    (deleteTask input now data).2.2 = true := by
  have hm := (List.getElem?_eq_some.mp hget).1
  have hall : ¬ strTrim (strToLower input) = "all" := by
    intro he
    rw [he, show parseIntJS "all" = none from by decide] at hparse
    cases hparse
  have harch : ¬ strTrim (strToLower input) = "archive" := by
    intro he
    rw [he, show parseIntJS "archive" = none from by decide] at hparse
    cases hparse
  have hbound : ¬ (n < 1 ∨ n > ((getPendingTasks data).length : Int)) := by
    omega
  have hdel : deleteTask input now data
      = ({ data with tasks := setHidden tgt.id now data.tasks },
          Msg.deletedOne tgt.name, true) := by
    simp only [deleteTask, if_neg hall, if_neg harch, hparse, if_neg hbound, hget]
  rw [hdel]
  have hpe : (setHidden tgt.id now data.tasks).filter (fun t => !t.completed && !t.hidden)
      = (getPendingTasks data).eraseIdx (n - 1).toNat :=
    filter_setHidden_eraseIdx _ now (by intro t; simp) data.tasks _ tgt hids hget
  have hlen : (setHidden tgt.id now data.tasks).length = data.tasks.length := by
    have h := congrArg List.length (setHidden_map_id tgt.id now data.tasks)
    simpa using h
  refine ⟨rfl, hpe, ?_, ?_, hlen, rfl, rfl, rfl⟩
  · show ((setHidden tgt.id now data.tasks).filter _).length = _
    rw [hpe]
    exact List.length_eraseIdx_of_lt hm
  · exact hide_mem_setHidden now data.tasks tgt hids
      (List.mem_of_mem_filter (List.getElem?_mem hget))

/-- C4 witness: deleting pending serial 2 from a concrete mixed store hides
the task with id 3 and shrinks the pending view to one element. -/
theorem claim4_delete_n_witness :
    (deleteTask "2" "t9" storeMixed).1.tasks
      = setHidden (⟨3, "c", false, false, "c3", none, none⟩ : Task).id "t9" storeMixed.tasks ∧
    getPendingTasks (deleteTask "2" "t9" storeMixed).1
      = (getPendingTasks storeMixed).eraseIdx ((2 : Int) - 1).toNat ∧
    (getPendingTasks (deleteTask "2" "t9" storeMixed).1).length
      = (getPendingTasks storeMixed).length - 1 ∧
    { (⟨3, "c", false, false, "c3", none, none⟩ : Task) with
        hidden := true, hiddenAt := some "t9" } ∈ (deleteTask "2" "t9" storeMixed).1.tasks ∧
    (deleteTask "2" "t9" storeMixed).1.tasks.length = storeMixed.tasks.length ∧
    (deleteTask "2" "t9" storeMixed).1.nextId = storeMixed.nextId ∧
    (deleteTask "2" "t9" storeMixed).2.1
      = Msg.deletedOne (⟨3, "c", false, false, "c3", none, none⟩ : Task).name ∧
    (deleteTask "2" "t9" storeMixed).2.2 = true :=
  claim4_delete_n storeMixed "2" "t9" 2 ⟨3, "c", false, false, "c3", none, none⟩
    (by decide) (by decide) (by decide) (by decide)

/-- C5 counterexample: a `delete all` immediately following another `delete all`
does not report a count of 0; it prints the count-free "no pending tasks"
message instead. -/
theorem claim5_counterexample :
    (deleteTask "all" "t2" (deleteTask "all" "t1" storeOnePending).1).2.1
        = Msg.noPendingToDelete ∧
    (deleteTask "all" "t2" (deleteTask "all" "t1" storeOnePending).1).2.1
        ≠ Msg.deletedPending 0 ∧
    (deleteTask "all" "t2" (deleteTask "all" "t1" storeOnePending).1).2.2 = false := by
  decide

/-- C5 (amended): on a store with pairwise-distinct ids and `N` pending tasks,
`delete all` with `N ≥ 1` hides exactly those `N` tasks and reports the count
`N`; with `N = 0` it reports the count-free "no pending tasks" message and
changes nothing (so a second consecutive `delete all` reports that message,
not 0).  `delete archive` behaves analogously over the archived tasks. -/
theorem claim5_delete_bulk (data : TaskData) (now : String)
    (hids : (data.tasks.map Task.id).Nodup) :
    (getPendingTasks data = [] →
      deleteTask "all" now data = (data, Msg.noPendingToDelete, false)) ∧
    (getPendingTasks data ≠ [] →
      (deleteTask "all" now data).1.tasks
        = data.tasks.map (fun t => if !t.completed && !t.hidden
            then { t with hidden := true, hiddenAt := some now } else t) ∧
      getPendingTasks (deleteTask "all" now data).1 = [] ∧
      (deleteTask "all" now data).1.nextId = data.nextId ∧
      (deleteTask "all" now data).2.1 = Msg.deletedPending (getPendingTasks data).length ∧
      (deleteTask "all" now data).2.2 = true) ∧
    (getArchivedTasks data = [] →
      deleteTask "archive" now data = (data, Msg.noArchivedToDelete, false)) ∧
    (getArchivedTasks data ≠ [] →
      (deleteTask "archive" now data).1.tasks
        = data.tasks.map (fun t => if t.completed && !t.hidden
            then { t with hidden := true, hiddenAt := some now } else t) ∧
      getArchivedTasks (deleteTask "archive" now data).1 = [] ∧
      (deleteTask "archive" now data).1.nextId = data.nextId ∧
      (deleteTask "archive" now data).2.1 = Msg.deletedArchived (getArchivedTasks data).length ∧
      (deleteTask "archive" now data).2.2 = true) := by
  have hall : deleteTask "all" now data
      = if (getPendingTasks data).length = 0 then (data, Msg.noPendingToDelete, false)
        else ({ data with
            tasks := hideTasks ((getPendingTasks data).map Task.id) now data.tasks },
          Msg.deletedPending (getPendingTasks data).length, true) := rfl
  have harch : deleteTask "archive" now data
      = if (getArchivedTasks data).length = 0 then (data, Msg.noArchivedToDelete, false)
        else ({ data with
            tasks := hideTasks ((getArchivedTasks data).map Task.id) now data.tasks },
          Msg.deletedArchived (getArchivedTasks data).length, true) := rfl
  refine ⟨?_, ?_, ?_, ?_⟩
  · intro hpe
    rw [hall, if_pos (by rw [hpe]; rfl)]
  · intro hpne
    have hlen : ¬ (getPendingTasks data).length = 0 := by
      simpa [List.length_eq_zero] using hpne
    rw [hall, if_neg hlen]
    refine ⟨?_, ?_, rfl, rfl, rfl⟩
    · show hideTasks ((data.tasks.filter _).map Task.id) now data.tasks = _
      exact hideTasks_filter_eq_map _ now data.tasks hids
    · show (hideTasks ((data.tasks.filter _).map Task.id) now data.tasks).filter _ = []
      rw [hideTasks_filter_eq_map _ now data.tasks hids]
      exact filter_map_hide_nil _ now (by intro t; simp) data.tasks
  · intro hae
    rw [harch, if_pos (by rw [hae]; rfl)]
  · intro hane
    have hlen : ¬ (getArchivedTasks data).length = 0 := by
      simpa [List.length_eq_zero] using hane
    rw [harch, if_neg hlen]
    refine ⟨?_, ?_, rfl, rfl, rfl⟩
    · show hideTasks ((data.tasks.filter _).map Task.id) now data.tasks = _
      exact hideTasks_filter_eq_map _ now data.tasks hids
    · show (hideTasks ((data.tasks.filter _).map Task.id) now data.tasks).filter _ = []
      rw [hideTasks_filter_eq_map _ now data.tasks hids]
      exact filter_map_hide_nil _ now (by intro t; simp) data.tasks

/-- C5 witness: `delete all` on a store with two pending tasks reports 2 and
empties the pending view. -/
theorem claim5_delete_bulk_witness :
    (deleteTask "all" "t7" storeMixed).2.1
        = Msg.deletedPending (getPendingTasks storeMixed).length ∧
    getPendingTasks (deleteTask "all" "t7" storeMixed).1 = [] ∧
    (deleteTask "all" "t7" storeMixed).2.2 = true := by
  have h := (claim5_delete_bulk storeMixed "t7" (by decide)).2.1 (by decide)
  exact ⟨h.2.2.2.1, h.2.1, h.2.2.2.2⟩

/-- The invariant restated over the list of stored ids. -/
theorem Inv_iff (d : TaskData) :
    Inv d ↔ (d.tasks.map Task.id).Nodup ∧ ∀ i ∈ d.tasks.map Task.id, i < d.nextId := by
  unfold Inv
  constructor
  · rintro ⟨h1, h2⟩
    refine ⟨h1, ?_⟩
    intro i hi
    obtain ⟨t, ht, rfl⟩ := List.mem_map.mp hi
    exact h2 t ht
  · rintro ⟨h1, h2⟩
    exact ⟨h1, fun t ht => h2 t.id (List.mem_map.mpr ⟨t, ht, rfl⟩)⟩

/-- `markDone` never changes ids or `nextId`. -/
theorem markDone_shape (n : Int) (now : String) (data : TaskData) :
    (markDone n now data).1.tasks.map Task.id = data.tasks.map Task.id ∧
    (markDone n now data).1.nextId = data.nextId := by
  simp only [markDone]
  split
  · exact ⟨rfl, rfl⟩
  · split
    · exact ⟨setCompleted_map_id _ _ _, rfl⟩
    · exact ⟨rfl, rfl⟩

/-- `deleteTask` never changes ids or `nextId`. -/
theorem deleteTask_shape (input now : String) (data : TaskData) :
    (deleteTask input now data).1.tasks.map Task.id = data.tasks.map Task.id ∧
    (deleteTask input now data).1.nextId = data.nextId := by
  simp only [deleteTask]
  split
  · split
    · exact ⟨rfl, rfl⟩
    · exact ⟨hideTasks_map_id _ _ _, rfl⟩
  · split
    · split
      · exact ⟨rfl, rfl⟩
      · exact ⟨hideTasks_map_id _ _ _, rfl⟩
    · split
      · exact ⟨rfl, rfl⟩
      · split
        · exact ⟨rfl, rfl⟩
        · split
          · exact ⟨setHidden_map_id _ _ _, rfl⟩
          · exact ⟨rfl, rfl⟩

/-- C6: every command preserves the storage invariant (distinct ids, `nextId`
above every id); the stored id sequence is either unchanged (`done`, `delete`,
read-only and invalid commands) or extended by exactly the fresh id `nextId`
(`add`, which then increments `nextId`); no record is ever removed. -/
theorem claim6_invariant (input now : String) (data : TaskData) (h : Inv data) :
    Inv (processCommand input now data).data ∧
    ((processCommand input now data).data.tasks.map Task.id = data.tasks.map Task.id ∧
        (processCommand input now data).data.nextId = data.nextId ∨
      (processCommand input now data).data.tasks.map Task.id
          = data.tasks.map Task.id ++ [data.nextId] ∧
        (processCommand input now data).data.nextId = data.nextId + 1) ∧
    ∀ t ∈ data.tasks, t.id ∈ (processCommand input now data).data.tasks.map Task.id := by
  have hshape :
      (processCommand input now data).data.tasks.map Task.id = data.tasks.map Task.id ∧
        (processCommand input now data).data.nextId = data.nextId ∨
      (processCommand input now data).data.tasks.map Task.id
          = data.tasks.map Task.id ++ [data.nextId] ∧
        (processCommand input now data).data.nextId = data.nextId + 1 := by
    by_cases h0 : strTrim input = ""
    · left
      constructor <;> simp [processCommand, h0]
    · by_cases h1 : commandOf input = "exit" ∨ commandOf input = "quit" ∨ commandOf input = "q"
      · left
        constructor <;> simp [processCommand, h0, h1]
      · by_cases h2 : commandOf input = "add"
        · by_cases h2a : argsOf input = ""
          · left
            constructor <;> simp [processCommand, h0, h1, h2, h2a]
          · right
            constructor <;> simp [processCommand, h0, h1, h2, h2a, addTask]
        · by_cases h3 : commandOf input = "done"
          · rcases hp : parseIntJS (argsOf input) with _ | nn
            · left
              constructor <;> simp [processCommand, h0, h1, h2, h3, hp]
            · left
              have hs := markDone_shape nn now data
              constructor <;> simp [processCommand, h0, h1, h2, h3, hp, hs.1, hs.2]
          · by_cases h4 : commandOf input = "delete"
            · by_cases h4a : argsOf input = ""
              · left
                constructor <;> simp [processCommand, h0, h1, h2, h3, h4, h4a]
              · left
                have hs := deleteTask_shape (argsOf input) now data
                constructor <;> simp [processCommand, h0, h1, h2, h3, h4, h4a, hs.1, hs.2]
            · by_cases h5 : commandOf input = "display" ∨ commandOf input = "list" ∨
                  commandOf input = "show"
              · left
                constructor <;> simp [processCommand, h0, h1, h2, h3, h4, h5]
              · by_cases h6 : commandOf input = "archive"
                · left
                  constructor <;> simp [processCommand, h0, h1, h2, h3, h4, h5, h6]
                · by_cases h7 : commandOf input = "help"
                  · left
                    constructor <;> simp [processCommand, h0, h1, h2, h3, h4, h5, h6, h7]
                  · by_cases h8 : commandOf input = "location"
                    · left
                      constructor <;>
                        simp [processCommand, h0, h1, h2, h3, h4, h5, h6, h7, h8]
                    · left
                      constructor <;>
                        simp [processCommand, h0, h1, h2, h3, h4, h5, h6, h7, h8]
  refine ⟨?_, hshape, ?_⟩
  · rcases hshape with ⟨hm, hn⟩ | ⟨hm, hn⟩
    · rw [Inv_iff] at h ⊢
      rw [hm, hn]
      exact h
    · rw [Inv_iff] at h ⊢
      obtain ⟨hnd, hb⟩ := h
      rw [hm, hn]
      constructor
      · refine List.Nodup.append hnd (List.nodup_singleton _) ?_
        intro a ha hb'
        rw [List.mem_singleton] at hb'
        subst hb'
        exact absurd (hb _ ha) (lt_irrefl _)
      · intro i hi
        rcases List.mem_append.mp hi with hi | hi
        · exact Nat.lt_succ_of_lt (hb i hi)
        · rw [List.mem_singleton] at hi
          subst hi
          exact Nat.lt_succ_self _
  · intro t ht
    have hmem : t.id ∈ data.tasks.map Task.id := List.mem_map.mpr ⟨t, ht, rfl⟩
    rcases hshape with ⟨hm, _⟩ | ⟨hm, _⟩
    · rw [hm]
      exact hmem
    · rw [hm]
      exact List.mem_append_left _ hmem

/- ==== round-trip lemmas for the JSON storage model ==== -/

/-- The digit characters are digits. -/
theorem natDigitChar_isDigit (d : Nat) (h : d < 10) : (natDigitChar d).isDigit = true := by
  interval_cases d <;> rfl

/-- Digit characters decode to their value. -/
theorem natDigitChar_val (d : Nat) (h : d < 10) : (natDigitChar d).toNat - 48 = d := by
  interval_cases d <;> rfl

/-- Hex digit characters decode to their value. -/
theorem hexVal_hexDigitChar (d : Nat) (h : d < 16) : hexVal (hexDigitChar d) = some d := by
  interval_cases d <;> rfl

/-- The fuel-driven renderer agrees with the reference digits. -/
theorem renderNatCore_eq : ∀ (fuel n : Nat) (acc : List Char), n < fuel →
    renderNatCore fuel n acc = natDigits n ++ acc := by
  intro fuel
  induction fuel with
  | zero => intro n acc h; omega
  | succ fuel ih =>
    intro n acc h
    rw [renderNatCore]
    by_cases h10 : n < 10
    · rw [if_pos h10, natDigits, dif_pos h10]
      rfl
    · rw [if_neg h10]
      rw [show natDigits n = natDigits (n / 10) ++ [natDigitChar (n % 10)] from by
        rw [natDigits, dif_neg h10]]
      rw [ih (n / 10) _ (by omega)]
      simp

/-- `renderNat` produces the reference digits. -/
theorem renderNat_eq (n : Nat) : renderNat n = natDigits n := by
  rw [renderNat, renderNatCore_eq (n + 1) n [] (by omega)]
  simp

/-- At least one digit is always rendered. -/
theorem natDigits_ne_nil (n : Nat) : natDigits n ≠ [] := by
  rw [natDigits]
  split <;> simp

/-- Every rendered digit is a digit character. -/
theorem natDigits_all_digit (n : Nat) : ∀ c ∈ natDigits n, c.isDigit = true := by
  induction n using Nat.strong_induction_on with
  | _ n ih =>
    rw [natDigits]
    by_cases h10 : n < 10
    · rw [dif_pos h10]
      intro c hc
      rw [List.mem_singleton] at hc
      subst hc
      exact natDigitChar_isDigit n h10
    · rw [dif_neg h10]
      intro c hc
      rcases List.mem_append.mp hc with hc | hc
      · exact ih (n / 10) (by omega) c hc
      · rw [List.mem_singleton] at hc
        subst hc
        exact natDigitChar_isDigit (n % 10) (by omega)

/-- Folding the digit-accumulation step over the rendered digits recovers the
number. -/
theorem natDigits_foldl (n : Nat) : ∀ a : Nat,
    (natDigits n).foldl (fun a c => a * 10 + (c.toNat - 48)) a
      = a * 10 ^ (natDigits n).length + n := by
  induction n using Nat.strong_induction_on with
  | _ n ih =>
    intro a
    rw [natDigits]
    by_cases h10 : n < 10
    · rw [dif_pos h10]
      simp [natDigitChar_val n h10]
    · rw [dif_neg h10]
      rw [List.foldl_append, ih (n / 10) (by omega) a]
      simp only [List.foldl_cons, List.foldl_nil, List.length_append, List.length_singleton]
      rw [natDigitChar_val (n % 10) (by omega)]
      have hdm : 10 * (n / 10) + n % 10 = n := Nat.div_add_mod n 10
      rw [pow_succ]
      ring_nf
      omega

/-- `takeWhile`/`dropWhile` split an append whose left part satisfies the
predicate and whose right part starts by failing it. -/
theorem takeWhile_dropWhile_append (p : Char → Bool) :
    ∀ l1 l2 : List Char, (∀ c ∈ l1, p c = true) → l2.takeWhile p = [] →
      (l1 ++ l2).takeWhile p = l1 ∧ (l1 ++ l2).dropWhile p = l2 := by
  intro l1
  induction l1 with
  | nil =>
    intro l2 _ h2
    refine ⟨by simpa using h2, ?_⟩
    cases l2 with
    | nil => rfl
    | cons d l2' =>
      by_cases hd : p d
      · simp [List.takeWhile_cons, hd] at h2
      · simp [List.dropWhile_cons, hd]
  | cons a l1 ih =>
    intro l2 h1 h2
    have ha : p a = true := h1 a (List.mem_cons_self a l1)
    obtain ⟨ht, hd⟩ := ih l2 (fun c hc => h1 c (List.mem_cons_of_mem _ hc)) h2
    constructor
    · simp [List.takeWhile_cons, ha, ht]
    · simp [List.dropWhile_cons, ha, hd]

/-- `readNat` undoes `renderNat` when the following text starts with a
non-digit. -/
theorem readNat_append (n : Nat) (tail : List Char)
    (hc : tail.takeWhile Char.isDigit = []) :
    readNat (renderNat n ++ tail) = some (n, tail) := by
  rw [renderNat_eq]
  obtain ⟨ht, hd⟩ := takeWhile_dropWhile_append Char.isDigit (natDigits n) tail
    (natDigits_all_digit n) hc
  simp only [readNat, ht, hd]
  rw [if_neg (by simpa [List.isEmpty_iff] using natDigits_ne_nil n)]
  rw [natDigits_foldl n 0]
  simp

/-- `readStringBody` undoes `escapeChars`: the string-escape round trip. -/
theorem readStringBody_escape :
    ∀ cs rest : List Char, readStringBody (escapeChars cs ++ '"' :: rest) = some (cs, rest) := by
  intro cs
  induction cs with
  | nil =>
    intro rest
    show readStringBody ('"' :: rest) = some ([], rest)
    rw [readStringBody.eq_def]
    simp
  | cons c cs ih =>
    intro rest
    rw [show escapeChars (c :: cs) = escChar c ++ escapeChars cs from by rw [escapeChars]]
    by_cases h1 : c = '"'
    · subst h1
      rw [show escChar '"' = ['\\', '"'] from rfl]
      simp only [List.cons_append, List.append_assoc]
      rw [readStringBody.eq_def]
      simp [ih]
    · by_cases h2 : c = '\\'
      · subst h2
        rw [show escChar '\\' = ['\\', '\\'] from rfl]
        simp only [List.cons_append, List.append_assoc]
        rw [readStringBody.eq_def]
        simp [ih]
      · by_cases h3 : c = '\x08'
        · subst h3
          rw [show escChar '\x08' = ['\\', 'b'] from rfl]
          simp only [List.cons_append, List.append_assoc]
          rw [readStringBody.eq_def]
          simp [ih]
        · by_cases h4 : c = '\t'
          · subst h4
            rw [show escChar '\t' = ['\\', 't'] from rfl]
            simp only [List.cons_append, List.append_assoc]
            rw [readStringBody.eq_def]
            simp [ih]
          · by_cases h5 : c = '\n'
            · subst h5
              rw [show escChar '\n' = ['\\', 'n'] from rfl]
              simp only [List.cons_append, List.append_assoc]
              rw [readStringBody.eq_def]
              simp [ih]
            · by_cases h6 : c = '\x0c'
              · subst h6
                rw [show escChar '\x0c' = ['\\', 'f'] from rfl]
                simp only [List.cons_append, List.append_assoc]
                rw [readStringBody.eq_def]
                simp [ih]
              · by_cases h7 : c = '\r'
                · subst h7
                  rw [show escChar '\r' = ['\\', 'r'] from rfl]
                  simp only [List.cons_append, List.append_assoc]
                  rw [readStringBody.eq_def]
                  simp [ih]
                · by_cases h8 : c.toNat < 32
                  · have hesc : escChar c = ['\\', 'u', '0', '0',
                        hexDigitChar (c.toNat / 16), hexDigitChar (c.toNat % 16)] := by
                      simp [escChar, h1, h2, h3, h4, h5, h6, h7, h8]
                    rw [hesc]
                    simp only [List.cons_append, List.append_assoc]
                    rw [readStringBody.eq_def]
                    have hhi := hexVal_hexDigitChar (c.toNat / 16) (by omega)
                    have hlo := hexVal_hexDigitChar (c.toNat % 16) (by omega)
                    simp [hhi, hlo, ih]
                    rw [show hexVal '0' = some 0 from rfl]
                    simp
                    rw [show c.toNat / 16 * 16 + c.toNat % 16 = c.toNat from by omega]
                    exact Char.ofNat_toNat c
                  · have hesc : escChar c = [c] := by
                      simp [escChar, h1, h2, h3, h4, h5, h6, h7, h8]
                    rw [hesc]
                    simp only [List.singleton_append]
                    rw [readStringBody.eq_def]
                    simp [h1, h2, h8, ih]

/-- `expectChunk` consumes an exact leading chunk. -/
theorem expectChunk_append (tok rest : List Char) :
    expectChunk tok (tok ++ rest) = some rest := by
  unfold expectChunk
  rw [if_pos (by rw [List.isPrefixOf_iff_prefix]; exact List.prefix_append tok rest)]
  rw [List.drop_left]

/-- `readQString` undoes `quoteString`. -/
theorem readQString_quote (s : String) (rest : List Char) :
    readQString (quoteString s ++ rest) = some (s, rest) := by
  have h1 : quoteString s ++ rest = ['"'] ++ (escapeChars s.data ++ '"' :: rest) := by
    simp [quoteString]
  rw [h1]
  unfold readQString
  rw [expectChunk_append]
  simp [readStringBody_escape]

/-- `readBool` undoes the boolean rendering. -/
theorem readBool_render (b : Bool) (rest : List Char) :
    readBool ((if b then "true".data else "false".data) ++ rest) = some (b, rest) := by
  cases b
  · show readBool (("false").data ++ rest) = some (false, rest)
    unfold readBool
    rw [show expectChunk ("true").data (("false").data ++ rest) = none from rfl]
    rw [expectChunk_append]
  · show readBool (("true").data ++ rest) = some (true, rest)
    unfold readBool
    rw [expectChunk_append]

/-- The `completedAt` key never matches where `hiddenAt` follows. -/
theorem expectChunk_ca_ha (X : List Char) :
    expectChunk ((",\n      \"completedAt\": ").data) ((",\n      \"hiddenAt\": ").data ++ X)
      = none := rfl

/-- The `completedAt` key never matches at the record close. -/
theorem expectChunk_ca_close (X : List Char) :
    expectChunk ((",\n      \"completedAt\": ").data) (("\n    \x7d").data ++ X) = none := rfl

/-- The `hiddenAt` key never matches at the record close. -/
theorem expectChunk_ha_close (X : List Char) :
    expectChunk ((",\n      \"hiddenAt\": ").data) (("\n    \x7d").data ++ X) = none := rfl

/-- The element separator never matches at the array close. -/
theorem expectChunk_sep_close (X : List Char) :
    expectChunk ((",\n").data) (("\n  ]").data ++ X) = none := rfl

/-- The empty-array token never matches a non-empty array. -/
theorem expectChunk_empty_arr (X : List Char) :
    expectChunk (("[]").data) (("[\n").data ++ X) = none := rfl

/-- `readNat` before the `name` key. -/
theorem readNat_name (n : Nat) (X : List Char) :
    readNat (renderNat n ++ ((",\n      \"name\": ").data ++ X))
      = some (n, (",\n      \"name\": ").data ++ X) :=
  readNat_append n _ rfl

/-- `readNat` before the closing brace. -/
theorem readNat_close (n : Nat) (X : List Char) :
    readNat (renderNat n ++ (("\n\x7d").data ++ X))
      = some (n, ("\n\x7d").data ++ X) :=
  readNat_append n _ rfl

set_option maxHeartbeats 1600000 in
/-- `readTask` undoes `renderTask`, for each of the four optional-field
combinations. -/
theorem readTask_render (t : Task) (rest : List Char) :
    readTask (renderTask t ++ rest) = some (t, rest) := by
  obtain ⟨tid, name, completed, hidden, createdAt, ca, ha⟩ := t
  cases ca with
  | none =>
    cases ha with
    | none =>
      unfold readTask renderTask
      simp only [List.append_assoc, List.nil_append, Option.bind_eq_bind]
      rw [expectChunk_append]
      simp only [Option.some_bind']
      rw [readNat_name]
      simp only [Option.some_bind']
      rw [expectChunk_append]
      simp only [Option.some_bind']
      rw [readQString_quote]
      simp only [Option.some_bind']
      rw [expectChunk_append]
      simp only [Option.some_bind']
      rw [readBool_render]
      simp only [Option.some_bind']
      rw [expectChunk_append]
      simp only [Option.some_bind']
      rw [readBool_render]
      simp only [Option.some_bind']
      rw [expectChunk_append]
      simp only [Option.some_bind']
      rw [readQString_quote]
      simp only [Option.some_bind']
      rw [expectChunk_ca_close]
      simp only []
      rw [expectChunk_ha_close]
      simp only []
      rw [expectChunk_append]
      simp only [Option.some_bind']
      rfl
    | some ha =>
      unfold readTask renderTask
      simp only [List.append_assoc, List.nil_append, Option.bind_eq_bind]
      rw [expectChunk_append]
      simp only [Option.some_bind']
      rw [readNat_name]
      simp only [Option.some_bind']
      rw [expectChunk_append]
      simp only [Option.some_bind']
      rw [readQString_quote]
      simp only [Option.some_bind']
      rw [expectChunk_append]
      simp only [Option.some_bind']
      rw [readBool_render]
      simp only [Option.some_bind']
      rw [expectChunk_append]
      simp only [Option.some_bind']
      rw [readBool_render]
      simp only [Option.some_bind']
      rw [expectChunk_append]
      simp only [Option.some_bind']
      rw [readQString_quote]
      simp only [Option.some_bind']
      rw [expectChunk_ca_ha]
      simp only []
      rw [expectChunk_append]
      simp only [Option.some_bind']
      rw [readQString_quote]
      simp only [Option.some_bind']
      rw [expectChunk_append]
      simp only [Option.some_bind']
      rfl
  | some ca =>
    cases ha with
    | none =>
      unfold readTask renderTask
      simp only [List.append_assoc, List.nil_append, Option.bind_eq_bind]
      rw [expectChunk_append]
      simp only [Option.some_bind']
      rw [readNat_name]
      simp only [Option.some_bind']
      rw [expectChunk_append]
      simp only [Option.some_bind']
      rw [readQString_quote]
      simp only [Option.some_bind']
      rw [expectChunk_append]
      simp only [Option.some_bind']
      rw [readBool_render]
      simp only [Option.some_bind']
      rw [expectChunk_append]
      simp only [Option.some_bind']
      rw [readBool_render]
      simp only [Option.some_bind']
      rw [expectChunk_append]
      simp only [Option.some_bind']
      rw [readQString_quote]
      simp only [Option.some_bind']
      rw [expectChunk_append]
      simp only [Option.some_bind']
      rw [readQString_quote]
      simp only [Option.some_bind']
      rw [expectChunk_ha_close]
      simp only []
      rw [expectChunk_append]
      simp only [Option.some_bind']
      rfl
    | some ha =>
      unfold readTask renderTask
      simp only [List.append_assoc, List.nil_append, Option.bind_eq_bind]
      rw [expectChunk_append]
      simp only [Option.some_bind']
      rw [readNat_name]
      simp only [Option.some_bind']
      rw [expectChunk_append]
      simp only [Option.some_bind']
      rw [readQString_quote]
      simp only [Option.some_bind']
      rw [expectChunk_append]
      simp only [Option.some_bind']
      rw [readBool_render]
      simp only [Option.some_bind']
      rw [expectChunk_append]
      simp only [Option.some_bind']
      rw [readBool_render]
      simp only [Option.some_bind']
      rw [expectChunk_append]
      simp only [Option.some_bind']
      rw [readQString_quote]
      simp only [Option.some_bind']
      rw [expectChunk_append]
      simp only [Option.some_bind']
      rw [readQString_quote]
      simp only [Option.some_bind']
      rw [expectChunk_append]
      simp only [Option.some_bind']
      rw [readQString_quote]
      simp only [Option.some_bind']
      rw [expectChunk_append]
      simp only [Option.some_bind']
      rfl

/-- C6 witness: an `add` on a concrete invariant-satisfying store. -/
theorem claim6_invariant_witness :
    Inv (processCommand "add y" "t5" storeOnePending).data ∧
    ((processCommand "add y" "t5" storeOnePending).data.tasks.map Task.id
          = storeOnePending.tasks.map Task.id ∧
        (processCommand "add y" "t5" storeOnePending).data.nextId = storeOnePending.nextId ∨
      (processCommand "add y" "t5" storeOnePending).data.tasks.map Task.id
          = storeOnePending.tasks.map Task.id ++ [storeOnePending.nextId] ∧
        (processCommand "add y" "t5" storeOnePending).data.nextId
          = storeOnePending.nextId + 1) ∧
    ∀ t ∈ storeOnePending.tasks,
      t.id ∈ (processCommand "add y" "t5" storeOnePending).data.tasks.map Task.id :=
  claim6_invariant "add y" "t5" storeOnePending (by decide)

/-- C10 witness: a name typed with a double space and tabs is stored with the
runs collapsed to single spaces. -/
theorem claim10_args_rejoined_witness :
    (processCommand "add  a \t\t b" "t0" (⟨[], 1⟩ : TaskData)).data.tasks
      = [⟨1, "a b", false, false, "t0", none, none⟩] := by
  have h := (claim10_args_rejoined "add  a \t\t b" "t0" ⟨[], 1⟩ (by decide) (by decide)).2
  simpa using h

end TaskCli
